import Mathlib

/-!
# qr-access core: shallow embedding and verification

A shallow embedding of the token-lifecycle core of the `qr-access` Go
repository (package `core`): the payload codec (`payload.go`:
`EncodePayload` / `DecodePayload`), the signer (`signer.go`), the two
store backends (`memory_store.go`, `redis_store.go`), the in-memory
rate limiter (`memory_rate_limiter.go`) and the token manager
(`manager.go`: `Generate` / `Verify`).

Modelling conventions:
* Go `time.Time` and `time.Duration` are modelled as `Int` (absolute
  instants and durations in one fixed unit; the Go code only compares
  instants with `Before`/`After` and adds durations, both of which are
  unit-independent).  The injected clock `m.now()` is modelled by
  passing the instant it returns as an explicit argument of the call,
  matching the spec's rule that the clock is queried exactly once per
  call.  `MemoryRateLimiter.CheckAndIncrement` calls `time.Now()`
  itself, so it too receives the instant it observes as an argument.
* Go maps guarded by a mutex are modelled as association lists with
  first-key-wins lookup and in-place update; each exported store /
  limiter operation is one atomic step, exactly the granularity the
  mutex (resp. the Redis server-side script) provides.
* `uuid.New()` is random; the fresh identifier is an explicit argument
  of `Generate`.  `uuid.UUID` values are carried as their canonical
  string form; `uuid.Parse` is modelled as acceptance of the canonical
  36-character form (the only form `Generate` ever emits).
* HMAC-SHA-256 (Go `crypto/hmac` + `crypto/sha256`, external to this
  repository) is an explicit function parameter `hmac` of the
  definitions that use it; every theorem quantifies over it, since no
  claimed property depends on anything but its determinism.
  `hmac.Equal` is constant-time byte equality; functionally it is `=`.
* `encoding/base64`'s `RawURLEncoding` (unpadded URL-safe alphabet,
  `\r`/`\n` skipped on decode, trailing bits not checked — Go's
  non-Strict default) and the UTF-8 byte layer of Go strings are
  modelled concretely below.
* `encoding/json` for the two-string-field `payload` struct is
  modelled concretely: marshalling emits the fields in struct order
  with Go's escaping (HTML-escaping encoder default); unmarshalling
  parses a JSON object whose member values are strings (plus top-level
  `null`, which Go accepts as a no-op), takes the last occurrence of
  the keys `id` and `sig` and leaves absent fields at their zero value
  `""` — exactly Go's struct-decoding behaviour on such documents.
  Not modelled (unreachable from any statement below): case-folded
  field-name matching, ignored members with non-string values,
  surrogate-pair `\u` escapes, and byte sequences that are not valid
  UTF-8 (which Go replaces with U+FFFD instead of rejecting).
-/

namespace QrAccess

/-- The error kinds of `core` (`errors.go`), plus `invalidArgument` for
the `fmt.Errorf` validation failures of `manager.go`. -/
inductive Err where
  | notFound
  | expired
  | used
  | badSignature
  | badPayload
  | rateLimitExceeded
  | invalidArgument
deriving DecidableEq, Repr

/-- `core.Token` (`errors.go`): the durable record. -/
structure Token where
  id : String
  userID : String
  action : String
  expiresAt : Int
  used : Bool
deriving DecidableEq, Repr

/-- `core.payload` (`payload.go`): the transported `{id, sig}` pair. -/
structure Payload where
  id : String
  sig : String
deriving DecidableEq, Repr

/-! ## Association-list maps (the mutex-guarded Go maps) -/

/-- Lookup in an association list (Go map read). -/
def alookup {β : Type} : List (String × β) → String → Option β
  | [], _ => none
  | (k, v) :: rest, key => if k = key then some v else alookup rest key

/-- Insert-or-replace in an association list (Go map write). -/
def aupdate {β : Type} : List (String × β) → String → β → List (String × β)
  | [], key, v => [(key, v)]
  | (k, w) :: rest, key, v =>
      if k = key then (key, v) :: rest else (k, w) :: aupdate rest key v

theorem alookup_aupdate_self {β : Type} (l : List (String × β)) (k : String) (v : β) :
    alookup (aupdate l k v) k = some v := by
  induction l with
  | nil => simp [aupdate, alookup]
  | cons hd tl ih =>
      obtain ⟨k', w⟩ := hd
      by_cases h : k' = k
      · simp [aupdate, alookup, h]
      · simp [aupdate, alookup, h, ih]

theorem alookup_aupdate_ne {β : Type} (l : List (String × β)) (k k' : String) (v : β)
    (h : k' ≠ k) : alookup (aupdate l k v) k' = alookup l k' := by
  induction l with
  | nil => simp [aupdate, alookup, Ne.symm h]
  | cons hd tl ih =>
      obtain ⟨k₀, w⟩ := hd
      by_cases h0 : k₀ = k
      · subst h0
        simp [aupdate, alookup, Ne.symm h]
      · by_cases h1 : k₀ = k'
        · simp [aupdate, alookup, h0, h1, h]
        · simp [aupdate, alookup, h0, h1, ih]

/-! ## Base64 (Go `encoding/base64` `RawURLEncoding`) -/

/-- The URL-safe base64 alphabet (`A-Z a-z 0-9 - _`). -/
def b64Char (n : Nat) : Char :=
  if n < 26 then Char.ofNat (65 + n)
  else if n < 52 then Char.ofNat (97 + (n - 26))
  else if n < 62 then Char.ofNat (48 + (n - 52))
  else if n = 62 then '-'
  else '_'

/-- Inverse alphabet lookup; `none` on characters outside the alphabet. -/
def b64Val (c : Char) : Option Nat :=
  if 'A' ≤ c ∧ c ≤ 'Z' then some (c.toNat - 65)
  else if 'a' ≤ c ∧ c ≤ 'z' then some (c.toNat - 97 + 26)
  else if '0' ≤ c ∧ c ≤ '9' then some (c.toNat - 48 + 52)
  else if c = '-' then some 62
  else if c = '_' then some 63
  else none

/-- Unpadded base64 encoding of a byte list (Go `RawURLEncoding.EncodeToString`). -/
def b64Encode : List Nat → List Char
  | [] => []
  | [a] => [b64Char (a / 4), b64Char (a % 4 * 16)]
  | [a, b] => [b64Char (a / 4), b64Char (a % 4 * 16 + b / 16), b64Char (b % 16 * 4)]
  | a :: b :: c :: rest =>
      b64Char (a / 4) :: b64Char (a % 4 * 16 + b / 16) ::
        b64Char (b % 16 * 4 + c / 64) :: b64Char (c % 64) :: b64Encode rest

/-- Unpadded base64 decoding (Go `RawURLEncoding.DecodeString` after its
`\r`/`\n` skipping): length `4k+1` and alphabet-foreign characters are
rejected; trailing bits are ignored (Go's non-Strict default). -/
def b64DecodeAux : List Char → Option (List Nat)
  | [] => some []
  | [_] => none
  | [x, y] => do
      let a ← b64Val x
      let b ← b64Val y
      pure [a * 4 + b / 16]
  | [x, y, z] => do
      let a ← b64Val x
      let b ← b64Val y
      let c ← b64Val z
      pure [a * 4 + b / 16, b % 16 * 16 + c / 4]
  | x :: y :: z :: w :: rest => do
      let a ← b64Val x
      let b ← b64Val y
      let c ← b64Val z
      let d ← b64Val w
      let tail ← b64DecodeAux rest
      pure ((a * 4 + b / 16) :: (b % 16 * 16 + c / 4) :: (c % 4 * 64 + d) :: tail)

/-- Go's base64 decoder skips `\r` and `\n` before processing quanta. -/
def b64DecodeString (s : String) : Option (List Nat) :=
  b64DecodeAux (s.data.filter (fun c => c ≠ '\r' ∧ c ≠ '\n'))

theorem b64Val_b64Char : ∀ n, n < 64 → b64Val (b64Char n) = some n := by decide

theorem b64Char_not_crlf : ∀ n, n < 64 → (b64Char n ≠ '\r' ∧ b64Char n ≠ '\n') := by decide

theorem b64DecodeAux_b64Encode :
    ∀ l : List Nat, (∀ b ∈ l, b < 256) → b64DecodeAux (b64Encode l) = some l
  | [], _ => rfl
  | [a], h => by
      have ha : a < 256 := h a (by simp)
      have h1 : b64Val (b64Char (a / 4)) = some (a / 4) := b64Val_b64Char _ (by omega)
      have h2 : b64Val (b64Char (a % 4 * 16)) = some (a % 4 * 16) :=
        b64Val_b64Char _ (by omega)
      simp only [b64Encode, b64DecodeAux, h1, h2, Option.bind_eq_bind,
        Option.some_bind, Option.pure_def, Option.some.injEq, List.cons.injEq,
        and_true]
      omega
  | [a, b], h => by
      have ha : a < 256 := h a (by simp)
      have hb : b < 256 := h b (by simp)
      have h1 : b64Val (b64Char (a / 4)) = some (a / 4) := b64Val_b64Char _ (by omega)
      have h2 : b64Val (b64Char (a % 4 * 16 + b / 16)) = some (a % 4 * 16 + b / 16) :=
        b64Val_b64Char _ (by omega)
      have h3 : b64Val (b64Char (b % 16 * 4)) = some (b % 16 * 4) :=
        b64Val_b64Char _ (by omega)
      simp only [b64Encode, b64DecodeAux, h1, h2, h3, Option.bind_eq_bind,
        Option.some_bind, Option.pure_def, Option.some.injEq, List.cons.injEq,
        and_true]
      omega
  | a :: b :: c :: rest, h => by
      have ha : a < 256 := h a (by simp)
      have hb : b < 256 := h b (by simp)
      have hc : c < 256 := h c (by simp)
      have ih := b64DecodeAux_b64Encode rest (fun x hx => h x (by simp [hx]))
      have h1 : b64Val (b64Char (a / 4)) = some (a / 4) := b64Val_b64Char _ (by omega)
      have h2 : b64Val (b64Char (a % 4 * 16 + b / 16)) = some (a % 4 * 16 + b / 16) :=
        b64Val_b64Char _ (by omega)
      have h3 : b64Val (b64Char (b % 16 * 4 + c / 64)) = some (b % 16 * 4 + c / 64) :=
        b64Val_b64Char _ (by omega)
      have h4 : b64Val (b64Char (c % 64)) = some (c % 64) := b64Val_b64Char _ (by omega)
      simp only [b64Encode, b64DecodeAux, h1, h2, h3, h4, ih, Option.bind_eq_bind,
        Option.some_bind, Option.pure_def, Option.some.injEq, List.cons.injEq,
        and_true]
      refine ⟨by omega, by omega, by omega⟩

theorem b64Encode_not_crlf :
    ∀ l : List Nat, (∀ b ∈ l, b < 256) →
      ∀ c ∈ b64Encode l, c ≠ '\r' ∧ c ≠ '\n'
  | [], _ => by simp [b64Encode]
  | [a], h => by
      have ha : a < 256 := h a (by simp)
      simp only [b64Encode, List.mem_cons, List.not_mem_nil, or_false]
      rintro c (rfl | rfl) <;> exact b64Char_not_crlf _ (by omega)
  | [a, b], h => by
      have ha : a < 256 := h a (by simp)
      have hb : b < 256 := h b (by simp)
      simp only [b64Encode, List.mem_cons, List.not_mem_nil, or_false]
      rintro c (rfl | rfl | rfl) <;> exact b64Char_not_crlf _ (by omega)
  | a :: b :: c :: rest, h => by
      have ha : a < 256 := h a (by simp)
      have hb : b < 256 := h b (by simp)
      have hc : c < 256 := h c (by simp)
      have ih := b64Encode_not_crlf rest (fun x hx => h x (by simp [hx]))
      simp only [b64Encode, List.mem_cons]
      rintro x (rfl | rfl | rfl | rfl | hx)
      · exact b64Char_not_crlf _ (by omega)
      · exact b64Char_not_crlf _ (by omega)
      · exact b64Char_not_crlf _ (by omega)
      · exact b64Char_not_crlf _ (by omega)
      · exact ih x hx

/-- Round trip of the base64 layer: decoding an encoded byte list
recovers it. -/
theorem b64DecodeString_b64Encode (l : List Nat) (h : ∀ b ∈ l, b < 256) :
    b64DecodeString (String.mk (b64Encode l)) = some l := by
  unfold b64DecodeString
  have hfil : (b64Encode l).filter (fun c => c ≠ '\r' ∧ c ≠ '\n') = b64Encode l := by
    rw [List.filter_eq_self]
    intro c hcmem
    have := b64Encode_not_crlf l h c hcmem
    simp [this.1, this.2]
  show b64DecodeAux (List.filter _ (b64Encode l)) = some l
  rw [hfil]
  exact b64DecodeAux_b64Encode l h

/-! ## UTF-8 (the byte layer of Go strings) -/

/-- UTF-8 encoding of one Unicode scalar value. -/
def utf8EncodeChar (c : Char) : List Nat :=
  if c.toNat < 128 then [c.toNat]
  else if c.toNat < 2048 then [192 + c.toNat / 64, 128 + c.toNat % 64]
  else if c.toNat < 65536 then
    [224 + c.toNat / 4096, 128 + c.toNat / 64 % 64, 128 + c.toNat % 64]
  else
    [240 + c.toNat / 262144, 128 + c.toNat / 4096 % 64, 128 + c.toNat / 64 % 64,
      128 + c.toNat % 64]

/-- UTF-8 encoding of a character list (the bytes of a Go string). -/
def utf8Encode : List Char → List Nat
  | [] => []
  | c :: cs => utf8EncodeChar c ++ utf8Encode cs

/-- UTF-8 decoding of one character: returns the decoded scalar and the
remaining bytes.  Rejects empty input, truncated or overlong sequences,
surrogate scalars and out-of-range values. -/
def utf8DecodeChar (l : List Nat) : Option (Char × List Nat) :=
  match l with
  | [] => none
  | b0 :: rest =>
    if b0 < 128 then some (Char.ofNat b0, rest)
    else if b0 < 192 then none
    else if b0 < 224 then
      match rest with
      | b1 :: rest1 =>
          if 128 ≤ b1 ∧ b1 < 192 then
            if 128 ≤ (b0 - 192) * 64 + (b1 - 128) then
              some (Char.ofNat ((b0 - 192) * 64 + (b1 - 128)), rest1)
            else none
          else none
      | [] => none
    else if b0 < 240 then
      match rest with
      | b1 :: b2 :: rest2 =>
          if (128 ≤ b1 ∧ b1 < 192) ∧ (128 ≤ b2 ∧ b2 < 192) then
            if 2048 ≤ (b0 - 224) * 4096 + (b1 - 128) * 64 + (b2 - 128) ∧
                ¬(55296 ≤ (b0 - 224) * 4096 + (b1 - 128) * 64 + (b2 - 128) ∧
                  (b0 - 224) * 4096 + (b1 - 128) * 64 + (b2 - 128) < 57344) then
              some (Char.ofNat ((b0 - 224) * 4096 + (b1 - 128) * 64 + (b2 - 128)), rest2)
            else none
          else none
      | _ => none
    else if b0 < 245 then
      match rest with
      | b1 :: b2 :: b3 :: rest3 =>
          if (128 ≤ b1 ∧ b1 < 192) ∧ (128 ≤ b2 ∧ b2 < 192) ∧ (128 ≤ b3 ∧ b3 < 192) then
            if 65536 ≤ (b0 - 240) * 262144 + (b1 - 128) * 4096 + (b2 - 128) * 64 + (b3 - 128) ∧
                (b0 - 240) * 262144 + (b1 - 128) * 4096 + (b2 - 128) * 64 + (b3 - 128) <
                  1114112 then
              some (Char.ofNat
                ((b0 - 240) * 262144 + (b1 - 128) * 4096 + (b2 - 128) * 64 + (b3 - 128)), rest3)
            else none
          else none
      | _ => none
    else none

/-- UTF-8 decoding loop.  The fuel argument only drives the recursion;
one unit is spent per decoded character, so any fuel at least the byte
length is enough. -/
def utf8DecodeAux : Nat → List Nat → Option (List Char)
  | _, [] => some []
  | 0, _ :: _ => none
  | fuel + 1, b0 :: rest =>
      match utf8DecodeChar (b0 :: rest) with
      | none => none
      | some (c, remaining) => (utf8DecodeAux fuel remaining).map (fun cs => c :: cs)

/-- UTF-8 decoding of a byte list. -/
def utf8Decode (l : List Nat) : Option (List Char) :=
  utf8DecodeAux l.length l

theorem char_toNat_valid (c : Char) :
    c.toNat < 55296 ∨ (57344 ≤ c.toNat ∧ c.toNat < 1114112) := c.valid

theorem utf8EncodeChar_lt (c : Char) : ∀ b ∈ utf8EncodeChar c, b < 256 := by
  have hv := char_toNat_valid c
  unfold utf8EncodeChar
  by_cases h1 : c.toNat < 128
  · simp only [h1, if_pos]
    intro b hb
    simp at hb
    omega
  · by_cases h2 : c.toNat < 2048
    · simp only [h1, h2, if_neg, if_pos, if_false, ite_true, ite_false]
      intro b hb
      simp at hb
      rcases hb with rfl | rfl <;> omega
    · by_cases h3 : c.toNat < 65536
      · simp only [h1, h2, h3, ite_true, ite_false]
        intro b hb
        simp at hb
        rcases hb with rfl | rfl | rfl <;> omega
      · simp only [h1, h2, h3, ite_true, ite_false]
        intro b hb
        simp at hb
        rcases hb with rfl | rfl | rfl | rfl <;> omega

theorem utf8Encode_lt : ∀ l : List Char, ∀ b ∈ utf8Encode l, b < 256
  | [] => by simp [utf8Encode]
  | c :: cs => by
      simp only [utf8Encode, List.mem_append]
      intro b hb
      rcases hb with hb | hb
      · exact utf8EncodeChar_lt c b hb
      · exact utf8Encode_lt cs b hb

theorem utf8EncodeChar_length_pos (c : Char) : 1 ≤ (utf8EncodeChar c).length := by
  unfold utf8EncodeChar
  split
  · simp
  · split
    · simp
    · split <;> simp

set_option maxRecDepth 8000 in
/-- Decoding one character undoes encoding one character, for any
trailing bytes. -/
theorem utf8DecodeChar_utf8EncodeChar (c : Char) (tail : List Nat) :
    utf8DecodeChar (utf8EncodeChar c ++ tail) = some (c, tail) := by
  have hv := char_toNat_valid c
  unfold utf8EncodeChar utf8DecodeChar
  by_cases h1 : c.toNat < 128
  · simp only [h1, ite_true, List.cons_append, List.nil_append, Char.ofNat_toNat]
  · by_cases h2 : c.toNat < 2048
    · have e1 : ¬(192 + c.toNat / 64 < 128) := by omega
      have e2 : ¬(192 + c.toNat / 64 < 192) := by omega
      have e3 : 192 + c.toNat / 64 < 224 := by omega
      have e4 : 128 ≤ 128 + c.toNat % 64 ∧ 128 + c.toNat % 64 < 192 := ⟨by omega, by omega⟩
      have hn : (192 + c.toNat / 64 - 192) * 64 + (128 + c.toNat % 64 - 128) =
          c.toNat := by omega
      have e5 : 128 ≤ c.toNat := by omega
      simp only [h1, h2, ite_true, ite_false, List.cons_append, List.nil_append,
        e1, e2, e3, e4, and_self, hn, e5, Char.ofNat_toNat]
    · by_cases h3 : c.toNat < 65536
      · have e1 : ¬(224 + c.toNat / 4096 < 128) := by omega
        have e2 : ¬(224 + c.toNat / 4096 < 192) := by omega
        have e3 : ¬(224 + c.toNat / 4096 < 224) := by omega
        have e4 : 224 + c.toNat / 4096 < 240 := by omega
        have e5 : (128 ≤ 128 + c.toNat / 64 % 64 ∧ 128 + c.toNat / 64 % 64 < 192) ∧
            128 ≤ 128 + c.toNat % 64 ∧ 128 + c.toNat % 64 < 192 :=
          ⟨⟨by omega, by omega⟩, by omega, by omega⟩
        have hn : (224 + c.toNat / 4096 - 224) * 4096 +
            (128 + c.toNat / 64 % 64 - 128) * 64 + (128 + c.toNat % 64 - 128) =
            c.toNat := by omega
        have e6 : 2048 ≤ c.toNat ∧ ¬(55296 ≤ c.toNat ∧ c.toNat < 57344) :=
          ⟨by omega, by omega⟩
        simp only [h1, h2, h3, ite_true, ite_false, List.cons_append, List.nil_append,
          e1, e2, e3, e4, e5, and_self, hn, e6, not_false_eq_true, Char.ofNat_toNat]
      · have e1 : ¬(240 + c.toNat / 262144 < 128) := by omega
        have e2 : ¬(240 + c.toNat / 262144 < 192) := by omega
        have e3 : ¬(240 + c.toNat / 262144 < 224) := by omega
        have e4 : ¬(240 + c.toNat / 262144 < 240) := by omega
        have e5 : 240 + c.toNat / 262144 < 245 := by omega
        have e6 : (128 ≤ 128 + c.toNat / 4096 % 64 ∧ 128 + c.toNat / 4096 % 64 < 192) ∧
            (128 ≤ 128 + c.toNat / 64 % 64 ∧ 128 + c.toNat / 64 % 64 < 192) ∧
            128 ≤ 128 + c.toNat % 64 ∧ 128 + c.toNat % 64 < 192 :=
          ⟨⟨by omega, by omega⟩, ⟨by omega, by omega⟩, by omega, by omega⟩
        have hn : (240 + c.toNat / 262144 - 240) * 262144 +
            (128 + c.toNat / 4096 % 64 - 128) * 4096 +
            (128 + c.toNat / 64 % 64 - 128) * 64 + (128 + c.toNat % 64 - 128) =
            c.toNat := by omega
        have e7 : 65536 ≤ c.toNat ∧ c.toNat < 1114112 := ⟨by omega, by omega⟩
        simp only [h1, h2, h3, ite_true, ite_false, List.cons_append, List.nil_append,
          e1, e2, e3, e4, e5, e6, and_self, hn, e7, Char.ofNat_toNat]

theorem utf8DecodeAux_utf8Encode :
    ∀ (l : List Char) (fuel : Nat), (utf8Encode l).length ≤ fuel →
      utf8DecodeAux fuel (utf8Encode l) = some l
  | [], fuel, _ => by cases fuel <;> rfl
  | c :: cs, fuel, hfuel => by
      have hcpos := utf8EncodeChar_length_pos c
      have hlen : (utf8Encode (c :: cs)).length =
          (utf8EncodeChar c).length + (utf8Encode cs).length := by
        simp [utf8Encode]
      cases fuel with
      | zero => omega
      | succ f => ?_
      have ih := utf8DecodeAux_utf8Encode cs f (by omega)
      show utf8DecodeAux (f + 1) (utf8EncodeChar c ++ utf8Encode cs) = some (c :: cs)
      obtain ⟨b, bs, hsplit⟩ : ∃ b bs, utf8EncodeChar c = b :: bs := by
        cases hh : utf8EncodeChar c with
        | nil =>
            rw [hh] at hcpos
            simp at hcpos
        | cons b bs => exact ⟨b, bs, rfl⟩
      rw [hsplit, List.cons_append, utf8DecodeAux]
      rw [show b :: (bs ++ utf8Encode cs) = utf8EncodeChar c ++ utf8Encode cs by
        rw [hsplit, List.cons_append]]
      rw [utf8DecodeChar_utf8EncodeChar c (utf8Encode cs)]
      simp only [ih, Option.map_some']

/-- Round trip of the UTF-8 layer. -/
theorem utf8Decode_utf8Encode (l : List Char) :
    utf8Decode (utf8Encode l) = some l :=
  utf8DecodeAux_utf8Encode l (utf8Encode l).length (Nat.le_refl _)

/-! ## JSON for the `payload` struct (Go `encoding/json`) -/

/-- Lowercase hexadecimal digit, as Go's JSON encoder emits. -/
def hexDigitChar (n : Nat) : Char :=
  if n < 10 then Char.ofNat (48 + n) else Char.ofNat (87 + n)

/-- Go's JSON string escaping with the default HTML-escaping encoder:
quote, backslash, `\n`/`\r`/`\t`, `\u00xx` for other control bytes,
`<`/`>`/`&` for `<`/`>`/`&`, and ` `/` `. -/
def jsonEscapeChar (c : Char) : List Char :=
  if c = '"' then ['\\', '"']
  else if c = '\\' then ['\\', '\\']
  else if c = '\n' then ['\\', 'n']
  else if c = '\r' then ['\\', 'r']
  else if c = '\t' then ['\\', 't']
  else if c.toNat < 32 then
    ['\\', 'u', '0', '0', hexDigitChar (c.toNat / 16), hexDigitChar (c.toNat % 16)]
  else if c = '<' then ['\\', 'u', '0', '0', '3', 'c']
  else if c = '>' then ['\\', 'u', '0', '0', '3', 'e']
  else if c = '&' then ['\\', 'u', '0', '0', '2', '6']
  else if c.toNat = 8232 then ['\\', 'u', '2', '0', '2', '8']
  else if c.toNat = 8233 then ['\\', 'u', '2', '0', '2', '9']
  else [c]

def jsonEscape : List Char → List Char
  | [] => []
  | c :: cs => jsonEscapeChar c ++ jsonEscape cs

/-- `json.Marshal` of the `payload` struct: an object with the tagged
fields in declaration order, `{"id":…,"sig":…}`. -/
def jsonMarshalPayload (p : Payload) : List Char :=
  '{' :: '"' :: 'i' :: 'd' :: '"' :: ':' :: '"' ::
    (jsonEscape p.id.data ++ ('"' :: ',' :: '"' :: 's' :: 'i' :: 'g' :: '"' :: ':' :: '"' ::
      (jsonEscape p.sig.data ++ ['"', '}'])))

/-- Hexadecimal digit value; `none` on non-hex characters. -/
def hexVal (c : Char) : Option Nat :=
  if '0' ≤ c ∧ c ≤ '9' then some (c.toNat - 48)
  else if 'a' ≤ c ∧ c ≤ 'f' then some (c.toNat - 97 + 10)
  else if 'A' ≤ c ∧ c ≤ 'F' then some (c.toNat - 65 + 10)
  else none

/-- The single-character JSON escapes. -/
def jsonUnescapeSimple (e : Char) : Option Char :=
  if e = '"' then some '"'
  else if e = '\\' then some '\\'
  else if e = '/' then some '/'
  else if e = 'b' then some (Char.ofNat 8)
  else if e = 'f' then some (Char.ofNat 12)
  else if e = 'n' then some '\n'
  else if e = 'r' then some '\r'
  else if e = 't' then some '\t'
  else none

/-- Scalar produced by a `\uXXXX` escape; Go's decoder substitutes
U+FFFD for unpaired surrogates instead of failing. -/
def jsonCodepoint (n : Nat) : Char :=
  if 55296 ≤ n ∧ n < 57344 then Char.ofNat 65533 else Char.ofNat n

/-- One step of JSON string-literal parsing, positioned inside the
literal: yields `(none, rest)` at the closing quote, `(some ch, rest)`
after one decoded character, and fails on raw control characters, bad
escapes or end of input. -/
def parseJsonStringStep (l : List Char) : Option (Option Char × List Char) :=
  match l with
  | [] => none
  | c :: rest =>
    if c = '"' then some (none, rest)
    else if c = '\\' then
      match rest with
      | [] => none
      | e :: rest1 =>
        if e = 'u' then
          match rest1 with
          | h1 :: h2 :: h3 :: h4 :: rest2 =>
            match hexVal h1, hexVal h2, hexVal h3, hexVal h4 with
            | some v1, some v2, some v3, some v4 =>
                some (some (jsonCodepoint (v1 * 4096 + v2 * 256 + v3 * 16 + v4)), rest2)
            | _, _, _, _ => none
          | _ => none
        else
          match jsonUnescapeSimple e with
          | some ch => some (some ch, rest1)
          | none => none
    else if c.toNat < 32 then none
    else some (some c, rest)

/-- JSON string-literal body parser, positioned after the opening
quote; returns the decoded content and the characters after the closing
quote.  One unit of fuel is spent per decoded character. -/
def parseJsonStringAux : Nat → List Char → Option (List Char × List Char)
  | 0, _ => none
  | fuel + 1, l =>
    match parseJsonStringStep l with
    | none => none
    | some (none, rest) => some ([], rest)
    | some (some ch, rest) =>
        (parseJsonStringAux fuel rest).map (fun sr => (ch :: sr.1, sr.2))

/-- JSON whitespace skipping. -/
def skipWs : List Char → List Char
  | [] => []
  | c :: rest =>
      if c = ' ' ∨ c = '\t' ∨ c = '\n' ∨ c = '\r' then skipWs rest else c :: rest

/-- Object-member list parser, positioned after `{` or after a `,`;
accepts `"key" : "value"` members (string values, as in every document
the codec itself produces) separated by commas and returns them with
the characters after the closing `}`. -/
def parseMembersAux : Nat → List Char → Option (List (List Char × List Char) × List Char)
  | 0, _ => none
  | fuel + 1, s =>
    match skipWs s with
    | [] => none
    | c :: r1 =>
      if c = '"' then
        match parseJsonStringAux (r1.length + 1) r1 with
        | none => none
        | some kr =>
          match skipWs kr.2 with
          | [] => none
          | c2 :: r2 =>
            if c2 = ':' then
              match skipWs r2 with
              | [] => none
              | c3 :: r3 =>
                if c3 = '"' then
                  match parseJsonStringAux (r3.length + 1) r3 with
                  | none => none
                  | some vr =>
                    match skipWs vr.2 with
                    | [] => none
                    | c4 :: r4 =>
                      if c4 = ',' then
                        (parseMembersAux fuel r4).map (fun mr => ((kr.1, vr.1) :: mr.1, mr.2))
                      else if c4 = '}' then some ([(kr.1, vr.1)], r4)
                      else none
                else none
            else none
      else none

/-- Parse a whole input as one JSON object with only whitespace around
it, returning the member list. -/
def parseJsonPayloadObject (cs : List Char) : Option (List (List Char × List Char)) :=
  match skipWs cs with
  | [] => none
  | c :: r =>
    if c = '{' then
      match skipWs r with
      | [] => none
      | c2 :: r2 =>
        if c2 = '}' then
          if skipWs r2 = [] then some [] else none
        else
          match parseMembersAux (r.length + 1) r with
          | none => none
          | some mr => if skipWs mr.2 = [] then some mr.1 else none
    else none

/-- Go's struct decoding of the member list: the last occurrence of
each tagged key wins, unknown keys are ignored, absent keys leave the
zero value `""`. -/
def payloadFromMembers (mems : List (List Char × List Char)) : Payload :=
  mems.foldl (fun acc kv =>
    if kv.1 = ['i', 'd'] then { acc with id := String.mk kv.2 }
    else if kv.1 = ['s', 'i', 'g'] then { acc with sig := String.mk kv.2 }
    else acc) ⟨"", ""⟩

/-- `json.Unmarshal` of raw bytes into the `payload` struct: decode
UTF-8, then accept either an object document or a top-level `null`
(which Go treats as a no-op, leaving the zero struct). -/
def jsonUnmarshalPayload (bytes : List Nat) : Option Payload :=
  match utf8Decode bytes with
  | none => none
  | some cs =>
    match parseJsonPayloadObject cs with
    | some mems => some (payloadFromMembers mems)
    | none =>
      match skipWs cs with
      | 'n' :: 'u' :: 'l' :: 'l' :: rest =>
          if skipWs rest = [] then some ⟨"", ""⟩ else none
      | _ => none

/-! ## Payload codec (`payload.go`) -/

/-- `EncodePayload`: JSON-marshal the pair, then base64url-encode the
bytes.  `json.Marshal` of a two-string-field struct cannot fail, so the
Go error return is always `nil` and the model is total. -/
def EncodePayload (id signature : String) : String :=
  String.mk (b64Encode (utf8Encode (jsonMarshalPayload ⟨id, signature⟩)))

/-- `DecodePayload`: base64url-decode, then JSON-unmarshal; each
failure is reported as `ErrBadPayload`. -/
def DecodePayload (encoded : String) : Except Err Payload :=
  match b64DecodeString encoded with
  | none => .error .badPayload
  | some raw =>
    match jsonUnmarshalPayload raw with
    | none => .error .badPayload
    | some data => .ok data

/-! ## JSON round trip -/

theorem hexVal_hexDigitChar : ∀ n, n < 16 → hexVal (hexDigitChar n) = some n := by decide

theorem parseJsonStringStep_quote (rest : List Char) :
    parseJsonStringStep ('"' :: rest) = some (none, rest) := by
  unfold parseJsonStringStep
  simp

theorem parseJsonStringStep_normal (c : Char) (tail : List Char)
    (h1 : c ≠ '"') (h2 : c ≠ '\\') (h3 : ¬c.toNat < 32) :
    parseJsonStringStep (c :: tail) = some (some c, tail) := by
  unfold parseJsonStringStep
  simp only [h1, h2, h3, ite_false]

theorem parseJsonStringStep_simple (e ch : Char) (tail : List Char)
    (he : e ≠ 'u') (hch : jsonUnescapeSimple e = some ch) :
    parseJsonStringStep ('\\' :: e :: tail) = some (some ch, tail) := by
  unfold parseJsonStringStep
  dsimp only
  rw [if_neg (by decide), if_pos rfl]
  simp only [he, ite_false, hch]

theorem parseJsonStringStep_u (h1 h2 h3 h4 : Char) (v1 v2 v3 v4 : Nat)
    (tail : List Char) (e1 : hexVal h1 = some v1) (e2 : hexVal h2 = some v2)
    (e3 : hexVal h3 = some v3) (e4 : hexVal h4 = some v4) :
    parseJsonStringStep ('\\' :: 'u' :: h1 :: h2 :: h3 :: h4 :: tail) =
      some (some (jsonCodepoint (v1 * 4096 + v2 * 256 + v3 * 16 + v4)), tail) := by
  unfold parseJsonStringStep
  dsimp only
  rw [if_neg (by decide), if_pos rfl]
  simp only [ite_true, e1, e2, e3, e4]

theorem parseJsonStringAux_step_close (f : Nat) (l rest : List Char)
    (h : parseJsonStringStep l = some (none, rest)) :
    parseJsonStringAux (f + 1) l = some ([], rest) := by
  rw [parseJsonStringAux, h]

theorem parseJsonStringAux_step_char (f : Nat) (l : List Char) (ch : Char)
    (rest : List Char) (h : parseJsonStringStep l = some (some ch, rest)) :
    parseJsonStringAux (f + 1) l =
      (parseJsonStringAux f rest).map (fun sr => (ch :: sr.1, sr.2)) := by
  rw [parseJsonStringAux, h]

theorem parseJsonStringAux_jsonEscape :
    ∀ (s : List Char) (fuel : Nat) (rest : List Char), s.length < fuel →
      parseJsonStringAux fuel (jsonEscape s ++ ('"' :: rest)) = some (s, rest)
  | [], fuel, rest, hf => by
      cases fuel with
      | zero => omega
      | succ f =>
          show parseJsonStringAux (f + 1) ('"' :: rest) = some ([], rest)
          exact parseJsonStringAux_step_close f _ rest (parseJsonStringStep_quote rest)
  | c :: cs, fuel, rest, hf => by
      cases fuel with
      | zero => omega
      | succ f => ?_
      have hlt : cs.length < f := by
        have := hf
        simp only [List.length_cons] at this
        omega
      have ih := parseJsonStringAux_jsonEscape cs f rest hlt
      show parseJsonStringAux (f + 1) ((jsonEscapeChar c ++ jsonEscape cs) ++ ('"' :: rest)) =
        some (c :: cs, rest)
      rw [List.append_assoc]
      unfold jsonEscapeChar
      by_cases h1 : c = '"'
      · subst h1
        simp only [ite_true, List.cons_append, List.nil_append]
        rw [parseJsonStringAux_step_char f _ '"' _
          (parseJsonStringStep_simple '"' '"' _ (by decide) (by decide)), ih]
        rfl
      · by_cases h2 : c = '\\'
        · subst h2
          simp only [ite_true, ite_false, h1, List.cons_append, List.nil_append]
          rw [parseJsonStringAux_step_char f _ '\\' _
            (parseJsonStringStep_simple '\\' '\\' _ (by decide) (by decide)), ih]
          rfl
        · by_cases h3 : c = '\n'
          · subst h3
            simp only [ite_true, ite_false, h1, h2, List.cons_append, List.nil_append]
            rw [parseJsonStringAux_step_char f _ '\n' _
              (parseJsonStringStep_simple 'n' '\n' _ (by decide) (by decide)), ih]
            rfl
          · by_cases h4 : c = '\r'
            · subst h4
              simp only [ite_true, ite_false, h1, h2, h3, List.cons_append, List.nil_append]
              rw [parseJsonStringAux_step_char f _ '\r' _
                (parseJsonStringStep_simple 'r' '\r' _ (by decide) (by decide)), ih]
              rfl
            · by_cases h5 : c = '\t'
              · subst h5
                simp only [ite_true, ite_false, h1, h2, h3, h4, List.cons_append,
                  List.nil_append]
                rw [parseJsonStringAux_step_char f _ '\t' _
                  (parseJsonStringStep_simple 't' '\t' _ (by decide) (by decide)), ih]
                rfl
              · by_cases h6 : c.toNat < 32
                · simp only [h1, h2, h3, h4, h5, h6, ite_true, ite_false,
                    List.cons_append, List.nil_append]
                  rw [parseJsonStringAux_step_char f _
                    (jsonCodepoint (0 * 4096 + 0 * 256 + c.toNat / 16 * 16 + c.toNat % 16)) _
                    (parseJsonStringStep_u '0' '0' (hexDigitChar (c.toNat / 16))
                      (hexDigitChar (c.toNat % 16)) 0 0 (c.toNat / 16) (c.toNat % 16) _
                      (by decide) (by decide)
                      (hexVal_hexDigitChar _ (by omega)) (hexVal_hexDigitChar _ (by omega))), ih]
                  have hcp : jsonCodepoint (0 * 4096 + 0 * 256 + c.toNat / 16 * 16 +
                      c.toNat % 16) = c := by
                    have hn : 0 * 4096 + 0 * 256 + c.toNat / 16 * 16 + c.toNat % 16 =
                        c.toNat := by omega
                    rw [hn, jsonCodepoint, if_neg (by omega), Char.ofNat_toNat]
                  rw [hcp]
                  rfl
                · by_cases h7 : c = '<'
                  · subst h7
                    simp only [ite_true, ite_false, h1, h2, h3, h4, h5, h6,
                      List.cons_append, List.nil_append]
                    rw [parseJsonStringAux_step_char f _ (jsonCodepoint (0 * 4096 + 0 * 256 +
                      3 * 16 + 12)) _
                      (parseJsonStringStep_u '0' '0' '3' 'c' 0 0 3 12 _
                        (by decide) (by decide) (by decide) (by decide)), ih]
                    rfl
                  · by_cases h8 : c = '>'
                    · subst h8
                      simp only [ite_true, ite_false, h1, h2, h3, h4, h5, h6, h7,
                        List.cons_append, List.nil_append]
                      rw [parseJsonStringAux_step_char f _ (jsonCodepoint (0 * 4096 + 0 * 256 +
                        3 * 16 + 14)) _
                        (parseJsonStringStep_u '0' '0' '3' 'e' 0 0 3 14 _
                          (by decide) (by decide) (by decide) (by decide)), ih]
                      rfl
                    · by_cases h9 : c = '&'
                      · subst h9
                        simp only [ite_true, ite_false, h1, h2, h3, h4, h5, h6, h7, h8,
                          List.cons_append, List.nil_append]
                        rw [parseJsonStringAux_step_char f _ (jsonCodepoint (0 * 4096 +
                          0 * 256 + 2 * 16 + 6)) _
                          (parseJsonStringStep_u '0' '0' '2' '6' 0 0 2 6 _
                            (by decide) (by decide) (by decide) (by decide)), ih]
                        rfl
                      · by_cases h10 : c.toNat = 8232
                        · simp only [ite_true, ite_false, h1, h2, h3, h4, h5, h6, h7, h8, h9,
                            List.cons_append, List.nil_append]
                          rw [if_pos h10]
                          simp only [List.cons_append, List.nil_append]
                          rw [parseJsonStringAux_step_char f _ (jsonCodepoint (2 * 4096 +
                            0 * 256 + 2 * 16 + 8)) _
                            (parseJsonStringStep_u '2' '0' '2' '8' 2 0 2 8 _
                              (by decide) (by decide) (by decide) (by decide)), ih]
                          have hc : jsonCodepoint (2 * 4096 + 0 * 256 + 2 * 16 + 8) = c := by
                            rw [jsonCodepoint, if_neg (by omega)]
                            rw [show (2 * 4096 + 0 * 256 + 2 * 16 + 8 : Nat) = c.toNat by omega]
                            exact Char.ofNat_toNat c
                          rw [hc]
                          rfl
                        · by_cases h11 : c.toNat = 8233
                          · simp only [ite_true, ite_false, h1, h2, h3, h4, h5, h6, h7, h8, h9,
                              h10, List.cons_append, List.nil_append]
                            rw [if_pos h11]
                            simp only [List.cons_append, List.nil_append]
                            rw [parseJsonStringAux_step_char f _ (jsonCodepoint (2 * 4096 +
                              0 * 256 + 2 * 16 + 9)) _
                              (parseJsonStringStep_u '2' '0' '2' '9' 2 0 2 9 _
                                (by decide) (by decide) (by decide) (by decide)), ih]
                            have hc : jsonCodepoint (2 * 4096 + 0 * 256 + 2 * 16 + 9) = c := by
                              rw [jsonCodepoint, if_neg (by omega)]
                              rw [show (2 * 4096 + 0 * 256 + 2 * 16 + 9 : Nat) =
                                c.toNat by omega]
                              exact Char.ofNat_toNat c
                            rw [hc]
                            rfl
                          · simp only [ite_true, ite_false, h1, h2, h3, h4, h5, h6, h7, h8, h9,
                              h10, h11, List.cons_append, List.nil_append]
                            rw [parseJsonStringAux_step_char f _ c _
                              (parseJsonStringStep_normal c _ h1 h2 h6), ih]
                            rfl


theorem skipWs_cons (c : Char) (r : List Char)
    (h : ¬(c = ' ' ∨ c = '\t' ∨ c = '\n' ∨ c = '\r')) : skipWs (c :: r) = c :: r := by
  rw [skipWs]
  simp only [h, ite_false]

set_option maxHeartbeats 1000000 in
theorem jsonEscapeChar_length_pos (c : Char) : 1 ≤ (jsonEscapeChar c).length := by
  unfold jsonEscapeChar
  split
  · simp
  split
  · simp
  split
  · simp
  split
  · simp
  split
  · simp
  split
  · simp
  split
  · simp
  split
  · simp
  split
  · simp
  split
  · simp
  split
  · simp
  simp

theorem jsonEscape_length_ge : ∀ s : List Char, s.length ≤ (jsonEscape s).length
  | [] => by simp [jsonEscape]
  | c :: cs => by
      have h1 := jsonEscapeChar_length_pos c
      have ih := jsonEscape_length_ge cs
      simp only [jsonEscape, List.length_append, List.length_cons]
      omega

theorem parseMembersAux_last (f : Nat) (key val rest : List Char) :
    parseMembersAux (f + 1)
      ('"' :: (jsonEscape key ++
        ('"' :: ':' :: '"' :: (jsonEscape val ++ ('"' :: '}' :: rest))))) =
      some ([(key, val)], rest) := by
  rw [parseMembersAux]
  rw [skipWs_cons '"' _ (by decide)]
  dsimp only
  rw [if_pos rfl]
  rw [parseJsonStringAux_jsonEscape key _ _ (by
    simp only [List.length_append, List.length_cons]
    have := jsonEscape_length_ge key
    omega)]
  dsimp only
  rw [skipWs_cons ':' _ (by decide)]
  dsimp only
  rw [if_pos rfl]
  rw [skipWs_cons '"' _ (by decide)]
  dsimp only
  rw [if_pos rfl]
  rw [parseJsonStringAux_jsonEscape val _ _ (by
    simp only [List.length_append, List.length_cons]
    have := jsonEscape_length_ge val
    omega)]
  dsimp only
  rw [skipWs_cons '}' _ (by decide)]
  dsimp only
  rw [if_neg (by decide), if_pos rfl]

theorem parseMembersAux_cons (f : Nat) (key val rest : List Char) :
    parseMembersAux (f + 1)
      ('"' :: (jsonEscape key ++
        ('"' :: ':' :: '"' :: (jsonEscape val ++ ('"' :: ',' :: rest))))) =
      (parseMembersAux f rest).map (fun mr => ((key, val) :: mr.1, mr.2)) := by
  rw [parseMembersAux]
  rw [skipWs_cons '"' _ (by decide)]
  dsimp only
  rw [if_pos rfl]
  rw [parseJsonStringAux_jsonEscape key _ _ (by
    simp only [List.length_append, List.length_cons]
    have := jsonEscape_length_ge key
    omega)]
  dsimp only
  rw [skipWs_cons ':' _ (by decide)]
  dsimp only
  rw [if_pos rfl]
  rw [skipWs_cons '"' _ (by decide)]
  dsimp only
  rw [if_pos rfl]
  rw [parseJsonStringAux_jsonEscape val _ _ (by
    simp only [List.length_append, List.length_cons]
    have := jsonEscape_length_ge val
    omega)]
  dsimp only
  rw [skipWs_cons ',' _ (by decide)]
  dsimp only
  rw [if_pos rfl]

theorem parseMembersAux_marshal (idv sigv : List Char) (fuel : Nat) (hf : 2 ≤ fuel) :
    parseMembersAux fuel
      ('"' :: 'i' :: 'd' :: '"' :: ':' :: '"' ::
        (jsonEscape idv ++ ('"' :: ',' :: '"' :: 's' :: 'i' :: 'g' :: '"' :: ':' :: '"' ::
          (jsonEscape sigv ++ ['"', '}'])))) =
      some ([(['i', 'd'], idv), (['s', 'i', 'g'], sigv)], []) := by
  obtain ⟨f, rfl⟩ : ∃ f, fuel = (f + 1) + 1 := ⟨fuel - 2, by omega⟩
  have hid : jsonEscape ['i', 'd'] = ['i', 'd'] := by decide
  have hsig : jsonEscape ['s', 'i', 'g'] = ['s', 'i', 'g'] := by decide
  have happId : ∀ Y : List Char, jsonEscape ['i', 'd'] ++ Y = 'i' :: 'd' :: Y := by
    intro Y
    rw [hid]
    simp
  have happSig : ∀ Y : List Char, jsonEscape ['s', 'i', 'g'] ++ Y = 's' :: 'i' :: 'g' :: Y := by
    intro Y
    rw [hsig]
    simp
  rw [← happId, ← happSig]
  rw [parseMembersAux_cons (f + 1) ['i', 'd'] idv _]
  rw [parseMembersAux_last f ['s', 'i', 'g'] sigv []]
  rfl


theorem parseJsonPayloadObject_marshal (p : Payload) :
    parseJsonPayloadObject (jsonMarshalPayload p) =
      some [(['i', 'd'], p.id.data), (['s', 'i', 'g'], p.sig.data)] := by
  unfold jsonMarshalPayload parseJsonPayloadObject
  rw [skipWs_cons '{' _ (by decide)]
  dsimp only
  rw [if_pos rfl]
  rw [skipWs_cons '"' _ (by decide)]
  dsimp only
  rw [if_neg (by decide)]
  rw [parseMembersAux_marshal p.id.data p.sig.data _ (by
    simp only [List.length_cons]
    omega)]
  dsimp only
  rw [show skipWs [] = [] from rfl]
  rw [if_pos rfl]

theorem jsonUnmarshalPayload_marshal (p : Payload) :
    jsonUnmarshalPayload (utf8Encode (jsonMarshalPayload p)) = some p := by
  unfold jsonUnmarshalPayload
  rw [utf8Decode_utf8Encode]
  dsimp only
  rw [parseJsonPayloadObject_marshal]
  dsimp only
  unfold payloadFromMembers
  have hne : (['s', 'i', 'g'] : List Char) ≠ ['i', 'd'] := by decide
  simp only [List.foldl, ite_true, hne, ite_false, eq_self_iff_true]

/-- Round trip of the payload codec: decoding an encoded pair returns
the pair. -/
theorem DecodePayload_EncodePayload (id signature : String) :
    DecodePayload (EncodePayload id signature) = .ok ⟨id, signature⟩ := by
  unfold EncodePayload DecodePayload
  rw [b64DecodeString_b64Encode _ (utf8Encode_lt _)]
  dsimp only
  rw [jsonUnmarshalPayload_marshal ⟨id, signature⟩]


/-! ## Signer (`signer.go`)

`Signer.Sign` is `base64url(HMAC-SHA-256(secret, idBytes))`.  The HMAC
primitive comes from Go's standard library, so it enters the model as
an explicit function parameter `hmac : String → String → List Nat`
mapping the secret and the token identifier (carried in its canonical
string form, which determines its 16 raw bytes injectively) to the MAC
bytes.  `Signer.Verify` recomputes the signature and compares with
`hmac.Equal`, constant-time byte equality, which is functionally `=`. -/

/-- `Signer.Sign`: the URL-safe unpadded base64 of the MAC bytes. -/
def signerSign (hmac : String → String → List Nat) (secret tokenID : String) : String :=
  String.mk (b64Encode (hmac secret tokenID))

/-- `Signer.Verify`: recompute and compare. -/
def signerVerify (hmac : String → String → List Nat)
    (secret tokenID signature : String) : Bool :=
  signerSign hmac secret tokenID == signature

/-! ## UUIDs (`github.com/google/uuid`, external)

`Generate` mints identifiers with `uuid.New()` and transports
`id.String()`, the canonical lowercase `8-4-4-4-12` form; `Verify`
re-parses with `uuid.Parse`.  The model carries identifiers as their
canonical strings and models `uuid.Parse` as acceptance of exactly the
36-character hyphenated hexadecimal form (Go also accepts some
alternative spellings of the same value, which nothing here emits). -/

def isHexDigit (c : Char) : Bool :=
  ('0' ≤ c ∧ c ≤ '9') ∨ ('a' ≤ c ∧ c ≤ 'f') ∨ ('A' ≤ c ∧ c ≤ 'F')

/-- The canonical hyphenated UUID form. -/
def isUuidString (s : String) : Bool :=
  s.data.length == 36 &&
    (List.range 36).all (fun i =>
      let c := s.data.getD i ' '
      if i == 8 || i == 13 || i == 18 || i == 23 then c == '-' else isHexDigit c)

/-- `uuid.Parse` on the canonical form, keeping the canonical string as
the identifier value. -/
def uuidParse (s : String) : Option String :=
  if isUuidString s then some s else none

/-! ## Store backends -/

/-- `MemoryStore` (`memory_store.go`): a mutex-guarded map from
identifier to record. -/
structure MemoryStore where
  data : List (String × Token)
deriving Repr

/-- `MemoryStore.Save`: insert or replace; ignores the TTL argument and
never fails. -/
def MemoryStore.Save (s : MemoryStore) (t : Token) (_ttl : Int) : MemoryStore :=
  ⟨aupdate s.data t.id t⟩

/-- `MemoryStore.Get`: point lookup, `ErrNotFound` when absent. -/
def MemoryStore.Get (s : MemoryStore) (id : String) : Except Err Token :=
  match alookup s.data id with
  | none => .error .notFound
  | some t => .ok t

/-- `MemoryStore.MarkUsed` (`memory_store.go` lines 39-49): looks the
record up, returns `ErrNotFound` when absent, and otherwise stores it
back with `Used = true` and returns nil — there is no check of the
current `used` flag, so a second call on an already-used record also
returns nil. -/
def MemoryStore.MarkUsed (s : MemoryStore) (id : String) : Except Err MemoryStore :=
  match alookup s.data id with
  | none => .error .notFound
  | some t => .ok ⟨aupdate s.data id { t with used := true }⟩

/-- `RedisStore` (`redis_store.go`): each key holds the JSON blob of a
Token together with the key's remaining TTL in milliseconds as Redis
reports it (`PTTL`: positive when expiring, `-1` when persistent).  The
JSON blob round-trips through `cjson`, so the record is carried
directly. -/
structure RedisStore where
  data : List (String × (Token × Int))
deriving Repr

/-- `RedisStore.MarkUsed`: the atomic server-side script — absent key
returns 0 (`ErrNotFound`); an already-used record returns -1
(`ErrUsed`); otherwise the blob is rewritten with `used = true`,
re-applying the current positive `PTTL` and leaving the key persistent
when `PTTL` is not positive. -/
def RedisStore.MarkUsed (s : RedisStore) (id : String) : Except Err RedisStore :=
  match alookup s.data id with
  | none => .error .notFound
  | some tp =>
      if tp.1.used then .error .used
      else .ok ⟨aupdate s.data id
        ({ tp.1 with used := true }, if tp.2 > 0 then tp.2 else -1)⟩

/-! ## Rate limiter (`memory_rate_limiter.go`) -/

/-- Per-principal window state. -/
structure UserLimit where
  count : Int
  windowEnd : Int
deriving DecidableEq, Repr

/-- `MemoryRateLimiter`: a mutex-guarded map from principal to window
state. -/
structure MemoryRateLimiter where
  users : List (String × UserLimit)
deriving Repr

/-- `MemoryRateLimiter.CheckAndIncrement`: fixed window.  `now` is the
instant `time.Now()` returns inside the call.  No entry, or a window
strictly in the past, resets to `(1, now+window)` and allows; a full
window rejects without mutating; otherwise the count increments. -/
def MemoryRateLimiter.CheckAndIncrement (r : MemoryRateLimiter) (now : Int)
    (userID : String) (limit : Int) (window : Int) : Except Err MemoryRateLimiter :=
  match alookup r.users userID with
  | none => .ok ⟨aupdate r.users userID ⟨1, now + window⟩⟩
  | some ul =>
      if now > ul.windowEnd then .ok ⟨aupdate r.users userID ⟨1, now + window⟩⟩
      else if ul.count ≥ limit then .error .rateLimitExceeded
      else .ok ⟨aupdate r.users userID ⟨ul.count + 1, ul.windowEnd⟩⟩

/-! ## Manager (`manager.go`)

The Go manager is polymorphic over the `Store` interface; the claims
about `Generate`/`Verify` cite the in-memory backend, so the operations
are modelled over `MemoryStore`, with the store and limiter state
threaded explicitly (the manager itself is stateless). -/

/-- The `Manager` configuration: clamp bounds and rate-limit settings.
`hasRateLimiter` models `m.rateLimiter != nil`.  The store and limiter
state are threaded explicitly through the operations. -/
structure Manager where
  minTTL : Int
  maxTTL : Int
  hasRateLimiter : Bool
  rateLimit : Int
  rateWindow : Int
deriving Repr

/-- The TTL clamp of `Manager.Generate` (lines 67-74): the `maxTTL`
clamp is applied first, then the `minTTL` clamp. -/
def clampTTL (minTTL maxTTL ttl : Int) : Int :=
  let t1 := if maxTTL > 0 ∧ ttl > maxTTL then maxTTL else ttl
  if minTTL > 0 ∧ t1 < minTTL then minTTL else t1

/-- `Manager.Generate`.  `rlNow` is the instant the limiter's internal
`time.Now()` returns, `now` the instant the injected clock `m.now()`
returns, and `freshId` the identifier `uuid.New().String()` mints.
Returns the call's result together with the store and limiter states
after the call (unchanged on failure). -/
def Manager.Generate (hmac : String → String → List Nat) (m : Manager)
    (st : MemoryStore) (rl : MemoryRateLimiter) (rlNow now : Int)
    (secretKey userID action : String) (ttl : Int) (freshId : String) :
    Except Err (Token × String) × MemoryStore × MemoryRateLimiter :=
  if secretKey = "" then (.error .invalidArgument, st, rl)
  else if userID = "" ∨ action = "" then (.error .invalidArgument, st, rl)
  else if ttl ≤ 0 then (.error .invalidArgument, st, rl)
  else
    match (if m.hasRateLimiter ∧ m.rateLimit > 0 then
        rl.CheckAndIncrement rlNow userID m.rateLimit m.rateWindow
      else .ok rl) with
    | .error e => (.error e, st, rl)
    | .ok rl' =>
        let ttl2 := clampTTL m.minTTL m.maxTTL ttl
        let token : Token :=
          { id := freshId, userID := userID, action := action,
            expiresAt := now + ttl2, used := false }
        let st' := st.Save token ttl2
        let signature := signerSign hmac secretKey freshId
        let payload := EncodePayload freshId signature
        (.ok (token, payload), st', rl')

/-- The pure phase of `Manager.Verify` (lines 97-128): decode, parse
the identifier, check the signature, fetch the record, check expiry and
then the fetched snapshot's `used` flag.  Returns the identifier and
the fetched record; performs no store mutation. -/
def Manager.VerifyPre (hmac : String → String → List Nat) (m : Manager)
    (st : MemoryStore) (now : Int) (secretKey encoded : String) :
    Except Err (String × Token) :=
  if secretKey = "" then .error .invalidArgument
  else
    match DecodePayload encoded with
    | .error e => .error e
    | .ok data =>
        match uuidParse data.id with
        | none => .error .badPayload
        | some tokenID =>
            if signerVerify hmac secretKey tokenID data.sig = false then
              .error .badSignature
            else
              match st.Get tokenID with
              | .error e => .error e
              | .ok token =>
                  if token.expiresAt < now then .error .expired
                  else if token.used then .error .used
                  else .ok (tokenID, token)

/-- The mutation phase of `Manager.Verify` (lines 130-134): mark the
record used through the store and return the token with `used = true`.
Splitting here reflects that `Get` and `MarkUsed` are two separate
atomic store operations, between which a concurrent call may run. -/
def Manager.VerifyPost (st : MemoryStore) (pre : Except Err (String × Token)) :
    Except Err Token × MemoryStore :=
  match pre with
  | .error e => (.error e, st)
  | .ok it =>
      match st.MarkUsed it.1 with
      | .error e => (.error e, st)
      | .ok st' => (.ok { it.2 with used := true }, st')

/-- `Manager.Verify`: the pure phase followed by the mutation phase. -/
def Manager.Verify (hmac : String → String → List Nat) (m : Manager)
    (st : MemoryStore) (now : Int) (secretKey encoded : String) :
    Except Err Token × MemoryStore :=
  Manager.VerifyPost st (Manager.VerifyPre hmac m st now secretKey encoded)


/-! ## Supporting lemmas about the manager -/

theorem MemoryStore.Get_eq_ok {st : MemoryStore} {id : String} {tok : Token}
    (h : st.Get id = .ok tok) : alookup st.data id = some tok := by
  unfold MemoryStore.Get at h
  cases halt : alookup st.data id with
  | none => rw [halt] at h; cases h
  | some t => rw [halt] at h; cases h; rfl

theorem Manager.VerifyPre_checks (hmac : String → String → List Nat) (m : Manager)
    (st : MemoryStore) (now : Int) (secret enc : String) (data : Payload) (tid : String)
    (tok : Token) (hsk : secret ≠ "") (hdec : DecodePayload enc = .ok data)
    (hid : uuidParse data.id = some tid)
    (hsig : signerVerify hmac secret tid data.sig = true)
    (hget : st.Get tid = .ok tok) :
    Manager.VerifyPre hmac m st now secret enc =
      (if tok.expiresAt < now then .error .expired
       else if tok.used then .error .used
       else .ok (tid, tok)) := by
  unfold Manager.VerifyPre
  rw [if_neg hsk, hdec]
  dsimp only
  rw [hid]
  dsimp only
  rw [hsig, if_neg (by simp), hget]

/-! ## Claim theorems -/

/-- C8: for every pair of strings `(id, sig)`, decoding the encoded
payload returns the original pair: `Decode(Encode(id, sig)) = (id, sig)`. -/
theorem c8_decode_encode_roundtrip (id signature : String) :
    DecodePayload (EncodePayload id signature) = .ok ⟨id, signature⟩ :=
  DecodePayload_EncodePayload id signature

/-- C6 counterexample: on the input `"e30"` — the base64url encoding of
`{}` — base64 decoding succeeds and the decoded JSON object has neither
an `id` nor a `sig` member, yet `DecodePayload` succeeds with both
fields `""` instead of failing with `BadPayload`, so the claim's
"fails … exactly when … both the id and sig fields present" is false. -/
theorem c6_counterexample :
    b64DecodeString "e30" = some [123, 125] ∧
    utf8Decode [123, 125] = some ['{', '}'] ∧
    parseJsonPayloadObject ['{', '}'] = some [] ∧
    DecodePayload "e30" = .ok ⟨"", ""⟩ ∧
    DecodePayload "e30" ≠ .error .badPayload := by
  refine ⟨rfl, rfl, rfl, rfl, ?_⟩
  intro h
  rw [show DecodePayload "e30" = .ok ⟨"", ""⟩ from rfl] at h
  cases h

/-- C6 (amended): `DecodePayload` fails with `BadPayload` exactly when
base64 decoding fails or the decoded bytes fail to unmarshal as JSON
(a document missing the `id`/`sig` members still unmarshals, leaving
the absent fields `""`); and whenever `DecodePayload` fails, `Verify`
fails with `BadPayload` uniformly in the store, the clock, the secret
and the MAC function — before signing or store access. -/
theorem c6_amended_decode_failure (enc : String) :
    (DecodePayload enc = .error .badPayload ↔
      b64DecodeString enc = none ∨
        (∃ raw, b64DecodeString enc = some raw ∧ jsonUnmarshalPayload raw = none)) ∧
    (∀ (hmac : String → String → List Nat) (m : Manager) (st : MemoryStore) (now : Int)
        (sk : String), sk ≠ "" → DecodePayload enc = .error .badPayload →
        Manager.Verify hmac m st now sk enc = (.error .badPayload, st)) := by
  constructor
  · unfold DecodePayload
    cases hb : b64DecodeString enc with
    | none => simp
    | some raw =>
        cases hj : jsonUnmarshalPayload raw with
        | none => simp [hj]
        | some d => simp [hj]
  · intro hmac m st now sk hsk hdec
    have hpre : Manager.VerifyPre hmac m st now sk enc = .error .badPayload := by
      unfold Manager.VerifyPre
      rw [if_neg hsk, hdec]
    unfold Manager.Verify
    rw [hpre]
    rfl

/-- Witness for the amended C6 at the concrete input `"~"` (not a
base64url character): decoding fails and `Verify` propagates
`BadPayload` with the store untouched. -/
theorem c6_amended_decode_failure_witness :
    DecodePayload "~" = .error .badPayload ∧
    Manager.Verify (fun _ _ => []) ⟨0, 0, false, 0, 0⟩ ⟨[]⟩ 0 "s" "~" =
      (.error .badPayload, ⟨[]⟩) :=
  ⟨rfl, (c6_amended_decode_failure "~").2 (fun _ _ => []) ⟨0, 0, false, 0, 0⟩ ⟨[]⟩ 0 "s"
    (by decide) rfl⟩

/-- C3: when the embedded signature is not the HMAC-based signature of
the embedded identifier under the secret passed to `Verify`, the call
fails with `BadSignature` and returns the store untouched, with the
very same result for every store state and every clock — so the failure
reveals nothing about which identifiers exist. -/
theorem c3_bad_signature_uniform (hmac : String → String → List Nat) (m : Manager)
    (st : MemoryStore) (now : Int) (secret enc : String) (data : Payload) (tid : String)
    (hsk : secret ≠ "") (hdec : DecodePayload enc = .ok data)
    (hid : uuidParse data.id = some tid)
    (hsig : data.sig ≠ signerSign hmac secret tid) :
    Manager.Verify hmac m st now secret enc = (.error .badSignature, st) := by
  have hver : signerVerify hmac secret tid data.sig = false := by
    unfold signerVerify
    exact beq_eq_false_iff_ne.mpr (Ne.symm hsig)
  have hpre : Manager.VerifyPre hmac m st now secret enc = .error .badSignature := by
    unfold Manager.VerifyPre
    rw [if_neg hsk, hdec]
    dsimp only
    rw [hid]
    dsimp only
    rw [hver, if_pos rfl]
  unfold Manager.Verify
  rw [hpre]
  rfl

/-- Witness for C3: concrete wrong-signature payload against a store
that does contain the identifier as a used record. -/
theorem c3_bad_signature_uniform_witness :
    DecodePayload (EncodePayload "00000000-0000-4000-8000-000000000000" "xx") =
      .ok ⟨"00000000-0000-4000-8000-000000000000", "xx"⟩ ∧
    Manager.Verify (fun _ _ => [0]) ⟨0, 0, false, 0, 0⟩
      ⟨[("00000000-0000-4000-8000-000000000000",
         ⟨"00000000-0000-4000-8000-000000000000", "u1", "login", 5, true⟩)]⟩ 10 "s"
      (EncodePayload "00000000-0000-4000-8000-000000000000" "xx") =
      (.error .badSignature,
        ⟨[("00000000-0000-4000-8000-000000000000",
           ⟨"00000000-0000-4000-8000-000000000000", "u1", "login", 5, true⟩)]⟩) := by
  refine ⟨rfl, ?_⟩
  exact c3_bad_signature_uniform (fun _ _ => [0]) ⟨0, 0, false, 0, 0⟩ _ 10 "s" _
    ⟨"00000000-0000-4000-8000-000000000000", "xx"⟩
    "00000000-0000-4000-8000-000000000000" (by decide) rfl (by decide) (by decide)

/-- C4: a fetched token whose deadline is strictly in the past makes
`Verify` fail with `Expired`, with no condition on the `used` flag —
the expiry check runs before the used check, so an expired-and-used
token reports `Expired`. -/
theorem c4_expired_before_used (hmac : String → String → List Nat) (m : Manager)
    (st : MemoryStore) (now : Int) (secret enc : String) (data : Payload) (tid : String)
    (tok : Token) (hsk : secret ≠ "") (hdec : DecodePayload enc = .ok data)
    (hid : uuidParse data.id = some tid)
    (hsig : signerVerify hmac secret tid data.sig = true)
    (hget : st.Get tid = .ok tok) (hexp : tok.expiresAt < now) :
    Manager.Verify hmac m st now secret enc = (.error .expired, st) := by
  have hpre := Manager.VerifyPre_checks hmac m st now secret enc data tid tok hsk hdec hid
    hsig hget
  rw [if_pos hexp] at hpre
  unfold Manager.Verify
  rw [hpre]
  rfl

/-- Witness for C4: a token that is both expired and used reports
`Expired`, not `Used`. -/
theorem c4_expired_before_used_witness :
    Manager.Verify (fun _ _ => []) ⟨0, 0, false, 0, 0⟩
      ⟨[("00000000-0000-4000-8000-000000000000",
         ⟨"00000000-0000-4000-8000-000000000000", "u1", "login", 5, true⟩)]⟩ 10 "s"
      (EncodePayload "00000000-0000-4000-8000-000000000000"
        (signerSign (fun _ _ => []) "s" "00000000-0000-4000-8000-000000000000")) =
      (.error .expired,
        ⟨[("00000000-0000-4000-8000-000000000000",
           ⟨"00000000-0000-4000-8000-000000000000", "u1", "login", 5, true⟩)]⟩) := by
  exact c4_expired_before_used (fun _ _ => []) ⟨0, 0, false, 0, 0⟩ _ 10 "s" _
    ⟨"00000000-0000-4000-8000-000000000000",
      signerSign (fun _ _ => []) "s" "00000000-0000-4000-8000-000000000000"⟩
    "00000000-0000-4000-8000-000000000000"
    ⟨"00000000-0000-4000-8000-000000000000", "u1", "login", 5, true⟩
    (by decide) rfl (by decide) (by decide) rfl (by decide)

/-- C10: the expiry comparison is strict (`ExpiresAt.Before(now)`), so
a `Verify` whose injected clock returns exactly the token's `expiresAt`
does not fail with `Expired`; on an unused stored token the call
succeeds and returns the token marked used. -/
theorem c10_exact_expiry_succeeds (hmac : String → String → List Nat) (m : Manager)
    (st : MemoryStore) (now : Int) (secret enc : String) (data : Payload) (tid : String)
    (tok : Token) (hsk : secret ≠ "") (hdec : DecodePayload enc = .ok data)
    (hid : uuidParse data.id = some tid)
    (hsig : signerVerify hmac secret tid data.sig = true)
    (hget : st.Get tid = .ok tok) (hnow : now = tok.expiresAt) (hused : tok.used = false) :
    Manager.Verify hmac m st now secret enc =
      (.ok { tok with used := true },
        ⟨aupdate st.data tid { tok with used := true }⟩) := by
  have hpre := Manager.VerifyPre_checks hmac m st now secret enc data tid tok hsk hdec hid
    hsig hget
  rw [if_neg (by omega), hused, if_neg (by simp)] at hpre
  have hmark : st.MarkUsed tid = .ok ⟨aupdate st.data tid { tok with used := true }⟩ := by
    unfold MemoryStore.MarkUsed
    rw [MemoryStore.Get_eq_ok hget]
  unfold Manager.Verify Manager.VerifyPost
  rw [hpre]
  dsimp only
  rw [hmark]

/-- Witness for C10: clock exactly at the deadline, unused token,
verification succeeds. -/
theorem c10_exact_expiry_succeeds_witness :
    Manager.Verify (fun _ _ => []) ⟨0, 0, false, 0, 0⟩
      ⟨[("00000000-0000-4000-8000-000000000000",
         ⟨"00000000-0000-4000-8000-000000000000", "u1", "login", 10, false⟩)]⟩ 10 "s"
      (EncodePayload "00000000-0000-4000-8000-000000000000"
        (signerSign (fun _ _ => []) "s" "00000000-0000-4000-8000-000000000000")) =
      (.ok ⟨"00000000-0000-4000-8000-000000000000", "u1", "login", 10, true⟩,
        ⟨[("00000000-0000-4000-8000-000000000000",
           ⟨"00000000-0000-4000-8000-000000000000", "u1", "login", 10, true⟩)]⟩) := by
  exact c10_exact_expiry_succeeds (fun _ _ => []) ⟨0, 0, false, 0, 0⟩ _ 10 "s" _
    ⟨"00000000-0000-4000-8000-000000000000",
      signerSign (fun _ _ => []) "s" "00000000-0000-4000-8000-000000000000"⟩
    "00000000-0000-4000-8000-000000000000"
    ⟨"00000000-0000-4000-8000-000000000000", "u1", "login", 10, false⟩
    (by decide) rfl (by decide) (by decide) rfl rfl rfl


/-- C1 (code bug): `MemoryStore.MarkUsed` never reports an
already-used record.  On a store holding the identifier with
`used = false`, the first call succeeds; calling again on the
still-present, now-used record again returns ok — not `AlreadyUsed`
(`ErrUsed`) as the claim and spec §4.3 require — while
`RedisStore.MarkUsed` on a used record correctly returns `ErrUsed`,
and an absent identifier correctly yields `NotFound` in both. -/
theorem c1_memory_markUsed_not_alreadyUsed :
    MemoryStore.MarkUsed
        ⟨[("00000000-0000-4000-8000-000000000000",
           ⟨"00000000-0000-4000-8000-000000000000", "u1", "login", 100, false⟩)]⟩
        "00000000-0000-4000-8000-000000000000" =
      .ok ⟨[("00000000-0000-4000-8000-000000000000",
             ⟨"00000000-0000-4000-8000-000000000000", "u1", "login", 100, true⟩)]⟩ ∧
    MemoryStore.MarkUsed
        ⟨[("00000000-0000-4000-8000-000000000000",
           ⟨"00000000-0000-4000-8000-000000000000", "u1", "login", 100, true⟩)]⟩
        "00000000-0000-4000-8000-000000000000" =
      .ok ⟨[("00000000-0000-4000-8000-000000000000",
             ⟨"00000000-0000-4000-8000-000000000000", "u1", "login", 100, true⟩)]⟩ ∧
    MemoryStore.MarkUsed ⟨[]⟩ "00000000-0000-4000-8000-000000000000" =
      .error .notFound ∧
    RedisStore.MarkUsed
        ⟨[("00000000-0000-4000-8000-000000000000",
           (⟨"00000000-0000-4000-8000-000000000000", "u1", "login", 100, true⟩, 5000))]⟩
        "00000000-0000-4000-8000-000000000000" =
      .error .used ∧
    RedisStore.MarkUsed ⟨[]⟩ "00000000-0000-4000-8000-000000000000" =
      .error .notFound :=
  ⟨rfl, rfl, rfl, rfl, rfl⟩

/-- C2 (code bug): for a token produced by `Generate`, the first
`Verify` succeeds with `used = true` and a sequential second `Verify`
fails with `Used`; but two concurrent `Verify` calls interleaved as
read-phase(A), read-phase(B), MarkUsed(A), MarkUsed(B) — possible
because `Get` and `MarkUsed` are separate atomic sections — BOTH return
success on the memory store, since `MemoryStore.MarkUsed` does not
report the already-used record to the second caller.  "Exactly one of N
concurrent calls succeeds" fails on the in-memory backend. -/
theorem c2_concurrent_verify_both_succeed :
    Manager.Generate (fun _ _ => []) ⟨0, 0, false, 0, 0⟩ ⟨[]⟩ ⟨[]⟩ 0 0 "s" "u1" "login" 100
        "00000000-0000-4000-8000-000000000000" =
      (.ok (⟨"00000000-0000-4000-8000-000000000000", "u1", "login", 100, false⟩,
            EncodePayload "00000000-0000-4000-8000-000000000000"
              (signerSign (fun _ _ => []) "s" "00000000-0000-4000-8000-000000000000")),
        ⟨[("00000000-0000-4000-8000-000000000000",
           ⟨"00000000-0000-4000-8000-000000000000", "u1", "login", 100, false⟩)]⟩, ⟨[]⟩) ∧
    -- sequential behaviour: first call succeeds, second fails with Used
    Manager.Verify (fun _ _ => []) ⟨0, 0, false, 0, 0⟩
        ⟨[("00000000-0000-4000-8000-000000000000",
           ⟨"00000000-0000-4000-8000-000000000000", "u1", "login", 100, false⟩)]⟩ 50 "s"
        (EncodePayload "00000000-0000-4000-8000-000000000000"
          (signerSign (fun _ _ => []) "s" "00000000-0000-4000-8000-000000000000")) =
      (.ok ⟨"00000000-0000-4000-8000-000000000000", "u1", "login", 100, true⟩,
        ⟨[("00000000-0000-4000-8000-000000000000",
           ⟨"00000000-0000-4000-8000-000000000000", "u1", "login", 100, true⟩)]⟩) ∧
    (Manager.Verify (fun _ _ => []) ⟨0, 0, false, 0, 0⟩
        ⟨[("00000000-0000-4000-8000-000000000000",
           ⟨"00000000-0000-4000-8000-000000000000", "u1", "login", 100, true⟩)]⟩ 50 "s"
        (EncodePayload "00000000-0000-4000-8000-000000000000"
          (signerSign (fun _ _ => []) "s" "00000000-0000-4000-8000-000000000000"))).1 =
      .error .used ∧
    -- the race: both read phases run against the pre-mark store …
    Manager.VerifyPre (fun _ _ => []) ⟨0, 0, false, 0, 0⟩
        ⟨[("00000000-0000-4000-8000-000000000000",
           ⟨"00000000-0000-4000-8000-000000000000", "u1", "login", 100, false⟩)]⟩ 50 "s"
        (EncodePayload "00000000-0000-4000-8000-000000000000"
          (signerSign (fun _ _ => []) "s" "00000000-0000-4000-8000-000000000000")) =
      .ok ("00000000-0000-4000-8000-000000000000",
        ⟨"00000000-0000-4000-8000-000000000000", "u1", "login", 100, false⟩) ∧
    -- … then caller A marks and returns success …
    Manager.VerifyPost
        ⟨[("00000000-0000-4000-8000-000000000000",
           ⟨"00000000-0000-4000-8000-000000000000", "u1", "login", 100, false⟩)]⟩
        (.ok ("00000000-0000-4000-8000-000000000000",
          ⟨"00000000-0000-4000-8000-000000000000", "u1", "login", 100, false⟩)) =
      (.ok ⟨"00000000-0000-4000-8000-000000000000", "u1", "login", 100, true⟩,
        ⟨[("00000000-0000-4000-8000-000000000000",
           ⟨"00000000-0000-4000-8000-000000000000", "u1", "login", 100, true⟩)]⟩) ∧
    -- … and caller B, who already passed its read phase, ALSO returns success
    Manager.VerifyPost
        ⟨[("00000000-0000-4000-8000-000000000000",
           ⟨"00000000-0000-4000-8000-000000000000", "u1", "login", 100, true⟩)]⟩
        (.ok ("00000000-0000-4000-8000-000000000000",
          ⟨"00000000-0000-4000-8000-000000000000", "u1", "login", 100, false⟩)) =
      (.ok ⟨"00000000-0000-4000-8000-000000000000", "u1", "login", 100, true⟩,
        ⟨[("00000000-0000-4000-8000-000000000000",
           ⟨"00000000-0000-4000-8000-000000000000", "u1", "login", 100, true⟩)]⟩) :=
  ⟨rfl, rfl, rfl, rfl, rfl, rfl⟩

/-- C9: a successful `MarkUsed` changes only the `used` flag.  For the
memory store the stored record becomes exactly `{tok with used := true}`
(same `id`, `userID`, `action`, `expiresAt`) and every other identifier
reads unchanged; for the cache-backed store the rewritten blob is
`{tok with used := true}` and the key's remaining TTL is exactly what
it was (`PTTL` positive preserved via `PX`, persistent key `-1` stays
persistent). -/
theorem c9_markUsed_frame (st : MemoryStore) (rst : RedisStore) (tid rtid : String)
    (tok rtok : Token) (pttl : Int)
    (hmem : alookup st.data tid = some tok)
    (hred : alookup rst.data rtid = some (rtok, pttl))
    (hrused : rtok.used = false)
    (hpttl : 0 < pttl ∨ pttl = -1) :
    (st.MarkUsed tid = .ok ⟨aupdate st.data tid { tok with used := true }⟩ ∧
      (⟨aupdate st.data tid { tok with used := true }⟩ : MemoryStore).Get tid =
        .ok { tok with used := true } ∧
      ({ tok with used := true }).id = tok.id ∧
      ({ tok with used := true }).userID = tok.userID ∧
      ({ tok with used := true }).action = tok.action ∧
      ({ tok with used := true }).expiresAt = tok.expiresAt ∧
      (∀ other, other ≠ tid →
        (⟨aupdate st.data tid { tok with used := true }⟩ : MemoryStore).Get other =
          st.Get other)) ∧
    rst.MarkUsed rtid = .ok ⟨aupdate rst.data rtid ({ rtok with used := true }, pttl)⟩ := by
  refine ⟨⟨?_, ?_, rfl, rfl, rfl, rfl, ?_⟩, ?_⟩
  · unfold MemoryStore.MarkUsed
    rw [hmem]
  · unfold MemoryStore.Get
    rw [alookup_aupdate_self]
  · intro other hother
    unfold MemoryStore.Get
    rw [alookup_aupdate_ne _ _ _ _ hother]
  · unfold RedisStore.MarkUsed
    rw [hred]
    dsimp only
    rw [hrused]
    rw [if_neg (by simp)]
    rw [show (if pttl > 0 then pttl else -1) = pttl by omega]

/-- Witness for C9 at concrete stores: one expiring cache record
(PTTL 5000 preserved) and one memory record. -/
theorem c9_markUsed_frame_witness :
    MemoryStore.MarkUsed ⟨[("a", ⟨"a", "u1", "login", 7, false⟩)]⟩ "a" =
      .ok ⟨[("a", ⟨"a", "u1", "login", 7, true⟩)]⟩ ∧
    RedisStore.MarkUsed ⟨[("b", (⟨"b", "u2", "pay", 9, false⟩, 5000))]⟩ "b" =
      .ok ⟨[("b", (⟨"b", "u2", "pay", 9, true⟩, 5000))]⟩ := by
  have h := c9_markUsed_frame ⟨[("a", ⟨"a", "u1", "login", 7, false⟩)]⟩
    ⟨[("b", (⟨"b", "u2", "pay", 9, false⟩, 5000))]⟩ "a" "b"
    ⟨"a", "u1", "login", 7, false⟩ ⟨"b", "u2", "pay", 9, false⟩ 5000
    rfl rfl rfl (by omega)
  exact ⟨h.1.1, h.2⟩


/-- `Generate` on valid inputs whose rate-limit step allows: the full
result shape. -/
theorem Manager.Generate_ok (hmac : String → String → List Nat) (m : Manager)
    (st : MemoryStore) (rl : MemoryRateLimiter) (rlNow now : Int)
    (sk uid act : String) (ttl : Int) (fid : String) (rl' : MemoryRateLimiter)
    (hsk : sk ≠ "") (huid : uid ≠ "") (hact : act ≠ "") (httl : 0 < ttl)
    (hrl : (if m.hasRateLimiter ∧ m.rateLimit > 0 then
        rl.CheckAndIncrement rlNow uid m.rateLimit m.rateWindow else .ok rl) = .ok rl') :
    Manager.Generate hmac m st rl rlNow now sk uid act ttl fid =
      (.ok ({ id := fid, userID := uid, action := act,
              expiresAt := now + clampTTL m.minTTL m.maxTTL ttl, used := false },
            EncodePayload fid (signerSign hmac sk fid)),
        st.Save { id := fid, userID := uid, action := act,
                  expiresAt := now + clampTTL m.minTTL m.maxTTL ttl, used := false }
          (clampTTL m.minTTL m.maxTTL ttl),
        rl') := by
  unfold Manager.Generate
  rw [if_neg hsk, if_neg (by simp [huid, hact]), if_neg (by omega), hrl]

/-- `Generate` on valid inputs whose rate-limit step rejects: the error
propagates and neither the store nor the limiter state changes. -/
theorem Manager.Generate_rateLimited (hmac : String → String → List Nat) (m : Manager)
    (st : MemoryStore) (rl : MemoryRateLimiter) (rlNow now : Int)
    (sk uid act : String) (ttl : Int) (fid : String) (e : Err)
    (hsk : sk ≠ "") (huid : uid ≠ "") (hact : act ≠ "") (httl : 0 < ttl)
    (hrl : (if m.hasRateLimiter ∧ m.rateLimit > 0 then
        rl.CheckAndIncrement rlNow uid m.rateLimit m.rateWindow else .ok rl) = .error e) :
    Manager.Generate hmac m st rl rlNow now sk uid act ttl fid = (.error e, st, rl) := by
  unfold Manager.Generate
  rw [if_neg hsk, if_neg (by simp [huid, hact]), if_neg (by omega), hrl]

/-- C5: with non-zero bounds configured, `Generate` clamps the
requested TTL — `maxTTL` first, then `minTTL` — computes
`expiresAt = now + clampedTTL`, and the persisted record carries that
expiry; the clamped TTL lies in `[minTTL, maxTTL]`. -/
theorem c5_generate_clamps_ttl (hmac : String → String → List Nat) (m : Manager)
    (st : MemoryStore) (rl : MemoryRateLimiter) (rlNow now : Int)
    (sk uid act : String) (ttl : Int) (fid : String)
    (hsk : sk ≠ "") (huid : uid ≠ "") (hact : act ≠ "") (httl : 0 < ttl)
    (hnorl : m.hasRateLimiter = false)
    (hmin : 0 < m.minTTL) (hmax : 0 < m.maxTTL) (hmm : m.minTTL ≤ m.maxTTL) :
    Manager.Generate hmac m st rl rlNow now sk uid act ttl fid =
      (.ok ({ id := fid, userID := uid, action := act,
              expiresAt := now + clampTTL m.minTTL m.maxTTL ttl, used := false },
            EncodePayload fid (signerSign hmac sk fid)),
        st.Save { id := fid, userID := uid, action := act,
                  expiresAt := now + clampTTL m.minTTL m.maxTTL ttl, used := false }
          (clampTTL m.minTTL m.maxTTL ttl),
        rl) ∧
    clampTTL m.minTTL m.maxTTL ttl =
      (if 0 < m.maxTTL ∧ m.maxTTL < ttl then
        (if 0 < m.minTTL ∧ m.maxTTL < m.minTTL then m.minTTL else m.maxTTL)
       else (if 0 < m.minTTL ∧ ttl < m.minTTL then m.minTTL else ttl)) ∧
    (st.Save { id := fid, userID := uid, action := act,
               expiresAt := now + clampTTL m.minTTL m.maxTTL ttl, used := false }
        (clampTTL m.minTTL m.maxTTL ttl)).Get fid =
      .ok { id := fid, userID := uid, action := act,
            expiresAt := now + clampTTL m.minTTL m.maxTTL ttl, used := false } ∧
    m.minTTL ≤ clampTTL m.minTTL m.maxTTL ttl ∧
    clampTTL m.minTTL m.maxTTL ttl ≤ m.maxTTL := by
  refine ⟨?_, ?_, ?_, ?_, ?_⟩
  · exact Manager.Generate_ok hmac m st rl rlNow now sk uid act ttl fid rl hsk huid hact
      httl (by simp [hnorl])
  · unfold clampTTL
    dsimp only
    split_ifs <;> omega
  · unfold MemoryStore.Save MemoryStore.Get
    rw [alookup_aupdate_self]
  · unfold clampTTL
    dsimp only
    split_ifs <;> omega
  · unfold clampTTL
    dsimp only
    split_ifs <;> omega

/-- Witness for C5 with the claim's numbers: `minTTL = 10s`,
`maxTTL = 600s` (in seconds), `ttl = 1` persists expiry `now() + 10`
and `ttl = 3600` persists expiry `now() + 600`. -/
theorem c5_generate_clamps_ttl_witness :
    clampTTL 10 600 1 = 10 ∧ clampTTL 10 600 3600 = 600 ∧
    (Manager.Generate (fun _ _ => []) ⟨10, 600, false, 0, 0⟩ ⟨[]⟩ ⟨[]⟩ 0 1000 "s" "u1"
        "login" 1 "a").2.1.Get "a" =
      .ok { id := "a", userID := "u1", action := "login", expiresAt := 1010,
            used := false } ∧
    (Manager.Generate (fun _ _ => []) ⟨10, 600, false, 0, 0⟩ ⟨[]⟩ ⟨[]⟩ 0 1000 "s" "u1"
        "login" 3600 "a").2.1.Get "a" =
      .ok { id := "a", userID := "u1", action := "login", expiresAt := 1600,
            used := false } := by
  have h1 := c5_generate_clamps_ttl (fun _ _ => []) ⟨10, 600, false, 0, 0⟩ ⟨[]⟩ ⟨[]⟩ 0 1000
    "s" "u1" "login" 1 "a" (by decide) (by decide) (by decide) (by decide) rfl
    (by decide) (by decide) (by decide)
  have h2 := c5_generate_clamps_ttl (fun _ _ => []) ⟨10, 600, false, 0, 0⟩ ⟨[]⟩ ⟨[]⟩ 0 1000
    "s" "u1" "login" 3600 "a" (by decide) (by decide) (by decide) (by decide) rfl
    (by decide) (by decide) (by decide)
  refine ⟨by decide, by decide, ?_, ?_⟩
  · rw [h1.1]
    exact h1.2.2.1
  · rw [h2.1]
    exact h2.2.2.1


/-- C7: with a limiter configured at limit 2 over a one-hour window
(3600 time units), three `Generate` calls for the same subject inside
the window go ok, ok, `RateLimitExceeded` — the rejected call returning
the store it was given, so no token is persisted by it — and a call
after the window has elapsed succeeds again. -/
theorem c7_rate_limit_scenario (hmac : String → String → List Nat) (m : Manager)
    (st1 : MemoryStore) (t1 t2 t3 t4 : Int) (sk uid act : String) (ttl : Int)
    (fid1 fid2 fid4 : String)
    (hm : m.hasRateLimiter = true) (hlim : m.rateLimit = 2) (hwin : m.rateWindow = 3600)
    (hsk : sk ≠ "") (huid : uid ≠ "") (hact : act ≠ "") (httl : 0 < ttl)
    (h2 : t2 ≤ t1 + 3600) (h3 : t3 ≤ t1 + 3600) (h4 : t1 + 3600 < t4) :
    ∃ (v1 v2 : Token × String) (st2 st3 : MemoryStore) (v4 : Token × String) (st5 : MemoryStore) (rl5 : MemoryRateLimiter),
      Manager.Generate hmac m st1 ⟨[]⟩ t1 t1 sk uid act ttl fid1 =
        (.ok v1, st2, ⟨[(uid, ⟨1, t1 + 3600⟩)]⟩) ∧
      Manager.Generate hmac m st2 ⟨[(uid, ⟨1, t1 + 3600⟩)]⟩ t2 t2 sk uid act ttl fid2 =
        (.ok v2, st3, ⟨[(uid, ⟨2, t1 + 3600⟩)]⟩) ∧
      Manager.Generate hmac m st3 ⟨[(uid, ⟨2, t1 + 3600⟩)]⟩ t3 t3 sk uid act ttl fid2 =
        (.error .rateLimitExceeded, st3, ⟨[(uid, ⟨2, t1 + 3600⟩)]⟩) ∧
      Manager.Generate hmac m st3 ⟨[(uid, ⟨2, t1 + 3600⟩)]⟩ t4 t4 sk uid act ttl fid4 =
        (.ok v4, st5, rl5) := by
  have hcfg : m.hasRateLimiter ∧ m.rateLimit > 0 := by
    rw [hm, hlim]
    exact ⟨rfl, by omega⟩
  have halook1 : alookup ([(uid, (⟨1, t1 + 3600⟩ : UserLimit))]) uid =
      some ⟨1, t1 + 3600⟩ := by simp [alookup]
  have halook2 : alookup ([(uid, (⟨2, t1 + 3600⟩ : UserLimit))]) uid =
      some ⟨2, t1 + 3600⟩ := by simp [alookup]
  have hrl1 : (if m.hasRateLimiter ∧ m.rateLimit > 0 then
      MemoryRateLimiter.CheckAndIncrement ⟨[]⟩ t1 uid m.rateLimit m.rateWindow
      else .ok ⟨[]⟩) = .ok ⟨[(uid, ⟨1, t1 + 3600⟩)]⟩ := by
    rw [if_pos hcfg, hwin]
    unfold MemoryRateLimiter.CheckAndIncrement
    rfl
  have hrl2 : (if m.hasRateLimiter ∧ m.rateLimit > 0 then
      MemoryRateLimiter.CheckAndIncrement ⟨[(uid, ⟨1, t1 + 3600⟩)]⟩ t2 uid
        m.rateLimit m.rateWindow
      else .ok ⟨[(uid, ⟨1, t1 + 3600⟩)]⟩) = .ok ⟨[(uid, ⟨2, t1 + 3600⟩)]⟩ := by
    rw [if_pos hcfg, hlim]
    unfold MemoryRateLimiter.CheckAndIncrement
    rw [halook1]
    dsimp only
    rw [if_neg (by omega), if_neg (by omega)]
    simp [aupdate]
  have hrl3 : (if m.hasRateLimiter ∧ m.rateLimit > 0 then
      MemoryRateLimiter.CheckAndIncrement ⟨[(uid, ⟨2, t1 + 3600⟩)]⟩ t3 uid
        m.rateLimit m.rateWindow
      else .ok ⟨[(uid, ⟨2, t1 + 3600⟩)]⟩) = .error .rateLimitExceeded := by
    rw [if_pos hcfg, hlim]
    unfold MemoryRateLimiter.CheckAndIncrement
    rw [halook2]
    dsimp only
    rw [if_neg (by omega), if_pos (by omega)]
  have hrl4 : (if m.hasRateLimiter ∧ m.rateLimit > 0 then
      MemoryRateLimiter.CheckAndIncrement ⟨[(uid, ⟨2, t1 + 3600⟩)]⟩ t4 uid
        m.rateLimit m.rateWindow
      else .ok ⟨[(uid, ⟨2, t1 + 3600⟩)]⟩) = .ok ⟨[(uid, ⟨1, t4 + m.rateWindow⟩)]⟩ := by
    rw [if_pos hcfg]
    unfold MemoryRateLimiter.CheckAndIncrement
    rw [halook2]
    dsimp only
    rw [if_pos (by omega)]
    simp [aupdate]
  exact ⟨_, _, _, _, _, _, _,
    Manager.Generate_ok hmac m st1 ⟨[]⟩ t1 t1 sk uid act ttl fid1 _ hsk huid hact httl hrl1,
    Manager.Generate_ok hmac m _ _ t2 t2 sk uid act ttl fid2 _ hsk huid hact httl hrl2,
    Manager.Generate_rateLimited hmac m _ _ t3 t3 sk uid act ttl fid2 _ hsk huid hact
      httl hrl3,
    Manager.Generate_ok hmac m _ _ t4 t4 sk uid act ttl fid4 _ hsk huid hact httl hrl4⟩

/-- Witness for C7 at concrete instants 0, 1800, 3600 (all within the
window ending at 3600) and 3601 (after it). -/
theorem c7_rate_limit_scenario_witness :
    ∃ (v1 v2 : Token × String) (st2 st3 : MemoryStore) (v4 : Token × String) (st5 : MemoryStore) (rl5 : MemoryRateLimiter),
      Manager.Generate (fun _ _ => []) ⟨0, 0, true, 2, 3600⟩ ⟨[]⟩ ⟨[]⟩ 0 0 "s" "u1"
          "login" 300 "a" = (.ok v1, st2, ⟨[("u1", ⟨1, 3600⟩)]⟩) ∧
      Manager.Generate (fun _ _ => []) ⟨0, 0, true, 2, 3600⟩ st2 ⟨[("u1", ⟨1, 3600⟩)]⟩
          1800 1800 "s" "u1" "login" 300 "b" = (.ok v2, st3, ⟨[("u1", ⟨2, 3600⟩)]⟩) ∧
      Manager.Generate (fun _ _ => []) ⟨0, 0, true, 2, 3600⟩ st3 ⟨[("u1", ⟨2, 3600⟩)]⟩
          3600 3600 "s" "u1" "login" 300 "b" =
        (.error .rateLimitExceeded, st3, ⟨[("u1", ⟨2, 3600⟩)]⟩) ∧
      Manager.Generate (fun _ _ => []) ⟨0, 0, true, 2, 3600⟩ st3 ⟨[("u1", ⟨2, 3600⟩)]⟩
          3601 3601 "s" "u1" "login" 300 "c" = (.ok v4, st5, rl5) := by
  have h := c7_rate_limit_scenario (fun _ _ => []) ⟨0, 0, true, 2, 3600⟩ ⟨[]⟩ 0 1800 3600
    3601 "s" "u1" "login" 300 "a" "b" "c" rfl rfl rfl (by decide) (by decide) (by decide)
    (by decide) (by omega) (by omega) (by omega)
  simpa using h

end QrAccess
